import Mathlib

/-!
Shallow embedding of the core of `telegram_bot.py` (SynologyTelegramBot):
the backoff retry wrapper, the TTL caches for the two price fetchers, the
price threshold ladder, the birthday next-occurrence computation and the
holiday-aware postcard send-date computation, together with theorems that
settle the specification claims about them.

Modelling conventions, used throughout:
* Python exceptions are values of `PyErr`; a fallible operation returns
  `Except PyErr T`.
* Wall-clock timestamps and calendar days are integers (seconds
  respectively days); `datetime.date` values appearing with an explicit
  year/month/day structure are `PyDate`.
* A Python function that reads and writes a global mutable dict is a pure
  function from the old state to the new state; the network is an explicit
  parameter giving the result of each fetch invocation.
* Unbounded `while` loops are modelled with an explicit fuel parameter and
  an `Option` result (`none` means the fuel was exhausted).
-/

namespace TelegramBot

/-- Python exception values relevant to the bot: a `telebot`
`ApiException` carrying its HTTP `error_code`, any other exception
(`ValueError` from a malformed payload, `requests` errors, ...) and the
bare `Exception("Max retries reached")` raised by the backoff wrapper. -/
inductive PyErr where
  | apiException (errorCode : Int)
  | otherError (tag : Nat)
  | maxRetriesReached
deriving DecidableEq, Repr

/-- One step of `api_request_with_backoff` (telegram_bot.py lines 59-71).
The first `Nat` is the remaining fuel `max_retries - retries`, the second
is the current value of `retries`.  `func i` is the result of invocation
number `i` of the wrapped operation.  The result triple is the Python
result (`Except.error` = the raised exception), the number of times `func`
was invoked, and the total number of seconds slept. -/
def backoffAux {T : Type} (func : Nat → Except PyErr T) (initial_delay : Nat) :
    Nat → Nat → Except PyErr T × Nat × Nat
  | 0, _ => (Except.error PyErr.maxRetriesReached, 0, 0)
  | fuel + 1, r =>
    match func r with
    | Except.ok t => (Except.ok t, 1, 0)
    | Except.error e =>
      match e with
      | PyErr.apiException code =>
        if code = 502 then
          let rest := backoffAux func initial_delay fuel (r + 1)
          (rest.1, rest.2.1 + 1, rest.2.2 + initial_delay * 2 ^ r)
        else
          (Except.error (PyErr.apiException code), 1, 0)
      | e => (Except.error e, 1, 0)

/-- `api_request_with_backoff(func, max_retries, initial_delay)`
(telegram_bot.py lines 59-71): retries only on `ApiException` with error
code 502, sleeping `initial_delay * 2 ** retries` before each retry;
any other exception propagates at once; when `retries` reaches
`max_retries` it raises `Exception("Max retries reached")`. -/
def api_request_with_backoff {T : Type} (func : Nat → Except PyErr T)
    (max_retries initial_delay : Nat) : Except PyErr T × Nat × Nat :=
  backoffAux func initial_delay max_retries 0

/-- With positive fuel the loop body runs, so the wrapped operation is
invoked at least once. -/
theorem backoffAux_invocations_pos {T : Type} (func : Nat → Except PyErr T)
    (initial_delay : Nat) (fuel r : Nat) (hf : 1 ≤ fuel) :
    1 ≤ (backoffAux func initial_delay fuel r).2.1 := by
  cases fuel with
  | zero => omega
  | succ n =>
    rw [backoffAux]
    cases h : func r with
    | ok t => simp
    | error e =>
      cases e with
      | apiException code =>
        by_cases hc : code = 502 <;> simp [hc]
      | otherError tag => simp
      | maxRetriesReached => simp

/-- If every invocation of the wrapped operation fails, the wrapper fails
(either by propagating an exception or by raising max-retries). -/
theorem backoffAux_error_of_all_fail {T : Type} (func : Nat → Except PyErr T)
    (initial_delay : Nat) (hfail : ∀ i, ∃ e, func i = Except.error e) :
    ∀ fuel r, ∃ e, (backoffAux func initial_delay fuel r).1 = Except.error e := by
  intro fuel
  induction fuel with
  | zero => intro r; exact ⟨PyErr.maxRetriesReached, rfl⟩
  | succ n ih =>
    intro r
    obtain ⟨e, he⟩ := hfail r
    rw [backoffAux, he]
    cases e with
    | apiException code =>
      by_cases hc : code = 502
      · subst hc
        simpa using ih (r + 1)
      · exact ⟨PyErr.apiException code, by simp [hc]⟩
    | otherError tag => exact ⟨PyErr.otherError tag, rfl⟩
    | maxRetriesReached => exact ⟨PyErr.maxRetriesReached, rfl⟩

/-- C4: a wrapped operation that fails with a transient error (an
`ApiException` with error code 502) on its first two invocations and
succeeds on the third is invoked exactly 3 times by
`api_request_with_backoff` with `max_retries = 5` and `initial_delay = 1`,
and the total induced sleep is exactly `1 * 2 ^ 0 + 1 * 2 ^ 1 = 3`
seconds. -/
theorem backoff_two_transient_then_success {T : Type}
    (func : Nat → Except PyErr T) (v : T)
    (h0 : func 0 = Except.error (PyErr.apiException 502))
    (h1 : func 1 = Except.error (PyErr.apiException 502))
    (h2 : func 2 = Except.ok v) :
    api_request_with_backoff func 5 1 = (Except.ok v, 3, 3) := by
  simp [api_request_with_backoff, backoffAux, h0, h1, h2]

/-- Closed instance of `backoff_two_transient_then_success` at a concrete
wrapped operation that fails transiently twice and then returns 7. -/
theorem backoff_two_transient_then_success_witness :
    api_request_with_backoff
      (fun i => if i < 2 then Except.error (PyErr.apiException 502) else Except.ok 7)
      5 1 = (Except.ok 7, 3, 3) :=
  backoff_two_transient_then_success
    (fun i => if i < 2 then Except.error (PyErr.apiException 502) else Except.ok 7)
    7 rfl rfl rfl

/-- C5: the backoff wrapper (a) classifies an `ApiException` with error
code 502 (upstream gateway/overload) as transient and invokes the
operation again, (b) propagates any other first-invocation failure
unchanged after exactly one invocation with no sleep, and (c) when every
invocation fails transiently it exhausts all 5 retries and fails with the
distinct `maxRetriesReached` error, not the operation's own error. -/
theorem backoff_classification {T : Type} (func : Nat → Except PyErr T) (e : PyErr) :
    (func 0 = Except.error (PyErr.apiException 502) →
      2 ≤ (api_request_with_backoff func 5 1).2.1) ∧
    (func 0 = Except.error e → (∀ c, e = PyErr.apiException c → c ≠ 502) →
      api_request_with_backoff func 5 1 = (Except.error e, 1, 0)) ∧
    ((∀ i, i < 5 → func i = Except.error (PyErr.apiException 502)) →
      (api_request_with_backoff func 5 1).1 = Except.error PyErr.maxRetriesReached ∧
        PyErr.maxRetriesReached ≠ PyErr.apiException 502) := by
  refine ⟨?_, ?_, ?_⟩
  · intro h0
    have h1 := backoffAux_invocations_pos func 1 4 1 (by omega)
    have hstep : backoffAux func 1 (4 + 1) 0 =
        ((backoffAux func 1 4 1).1, (backoffAux func 1 4 1).2.1 + 1,
          (backoffAux func 1 4 1).2.2 + 1 * 2 ^ 0) := by
      rw [backoffAux, h0]
      simp
    show 2 ≤ (backoffAux func 1 (4 + 1) 0).2.1
    rw [hstep]
    dsimp only
    omega
  · intro h0 hperm
    simp only [api_request_with_backoff, backoffAux, h0]
    cases e with
    | apiException code =>
      have : code ≠ 502 := hperm code rfl
      simp [this]
    | otherError tag => rfl
    | maxRetriesReached => rfl
  · intro hall
    constructor
    · have e0 := hall 0 (by omega)
      have e1 := hall 1 (by omega)
      have e2 := hall 2 (by omega)
      have e3 := hall 3 (by omega)
      have e4 := hall 4 (by omega)
      simp [api_request_with_backoff, backoffAux, e0, e1, e2, e3, e4]
    · intro h
      exact PyErr.noConfusion h

/-- Closed instance of `backoff_classification`: an operation that always
fails with error code 502 is invoked at least twice, and the wrapper ends
with the distinct max-retries error. -/
theorem backoff_classification_witness :
    2 ≤ (api_request_with_backoff
        (fun _ => (Except.error (PyErr.apiException 502) : Except PyErr Nat)) 5 1).2.1 ∧
    (api_request_with_backoff
        (fun _ => (Except.error (PyErr.apiException 502) : Except PyErr Nat)) 5 1).1 =
      Except.error PyErr.maxRetriesReached :=
  ⟨(backoff_classification (fun _ => Except.error (PyErr.apiException 502))
      (PyErr.apiException 502)).1 rfl,
   ((backoff_classification (fun _ => Except.error (PyErr.apiException 502))
      (PyErr.apiException 502)).2.2 (fun _ _ => rfl)).1⟩

/-- The payload assembled by the `fetch_data` closure inside
`get_mempool_data` (telegram_bot.py lines 127-140): EUR price, USD price
and the fastest fee, as integers. -/
structure MempoolData where
  price_eur : Int
  price_usd : Int
  fee : Int
deriving DecidableEq, Repr

/-- One of the global cache dicts `MEMPOOL_CACHE` / `BITCOIN_CACHE`
(telegram_bot.py lines 55-56): optional cached data plus the optional
timestamp (in seconds) of the last successful refresh. -/
structure CacheState (T : Type) where
  data : Option T
  last_updated : Option Int
deriving DecidableEq, Repr

/-- The cache freshness test
`cache['last_updated'] and (current_time - cache['last_updated']) < timedelta(seconds=60)`
(telegram_bot.py lines 121 and 178). -/
def cache_is_fresh {T : Type} (cache : CacheState T) (now : Int) : Bool :=
  match cache.last_updated with
  | none => false
  | some lu => decide (now - lu < 60)

/-- `get_mempool_data` (telegram_bot.py lines 116-148).  `fetch_data i` is
the result of invocation number `i` of the inner fetch closure; `now` is
`datetime.now()` captured at entry.  Returns the Python return value
(`none` models the `return None` of the except branch), the new value of
`MEMPOOL_CACHE`, and the number of invocations of `fetch_data`. -/
def get_mempool_data (fetch_data : Nat → Except PyErr MempoolData) (now : Int)
    (cache : CacheState MempoolData) :
    Option MempoolData × CacheState MempoolData × Nat :=
  if cache_is_fresh cache now then
    (cache.data, cache, 0)
  else
    let r := api_request_with_backoff fetch_data 5 1
    match r.1 with
    | Except.ok d => (some d, ⟨some d, some now⟩, r.2.1)
    | Except.error _ => (none, cache, r.2.1)

/-- `get_coingecko_price_change` (telegram_bot.py lines 150-171): the
backoff-wrapped change fetch, with every failure caught and turned into
`None`.  Returns the value and the number of fetch invocations. -/
def get_coingecko_price_change (fetch_data : Nat → Except PyErr Int) :
    Option Int × Nat :=
  let r := api_request_with_backoff fetch_data 5 1
  match r.1 with
  | Except.ok v => (some v, r.2.1)
  | Except.error _ => (none, r.2.1)

/-- The combined payload cached by `get_bitcoin_price` (telegram_bot.py
lines 189-196): the `'bitcoin'` dict with EUR/USD prices, the 24h change
(`none` models the `'N/A'` sentinel) and the suggested fee (`none` when
the CoinGecko fallback payload, which has no fee, was used). -/
structure BitcoinData where
  eur : Int
  usd : Int
  eur_24h_change : Option Int
  suggested_fee : Option Int
deriving DecidableEq, Repr

/-- `get_bitcoin_price` (telegram_bot.py lines 173-215).  The three fetch
arguments give the per-invocation results of the mempool fetch closure,
the CoinGecko 24h-change fetch closure and the CoinGecko fallback fetch
closure.  Returns the Python return value, the new `BITCOIN_CACHE`, the
new `MEMPOOL_CACHE`, and the total number of underlying fetch
invocations.  The call `api_request_with_backoff(get_mempool_data)` at
line 185 is modelled literally: `get_mempool_data` never raises, so the
wrapper sees a success on its first invocation. -/
def get_bitcoin_price (mempool_fetch : Nat → Except PyErr MempoolData)
    (change_fetch : Nat → Except PyErr Int)
    (fallback_fetch : Nat → Except PyErr BitcoinData) (now : Int)
    (mempool_cache : CacheState MempoolData)
    (bitcoin_cache : CacheState BitcoinData) :
    Option BitcoinData × CacheState BitcoinData × CacheState MempoolData × Nat :=
  if cache_is_fresh bitcoin_cache now then
    (bitcoin_cache.data, bitcoin_cache, mempool_cache, 0)
  else
    let mr := api_request_with_backoff
      (fun _ => Except.ok (get_mempool_data mempool_fetch now mempool_cache)) 5 1
    let m := match mr.1 with
      | Except.ok x => x
      | Except.error _ => (none, mempool_cache, 0)
    let pcr := api_request_with_backoff
      (fun _ => Except.ok (get_coingecko_price_change change_fetch)) 5 1
    let pc := match pcr.1 with
      | Except.ok x => x
      | Except.error _ => (none, 0)
    match m.1 with
    | some md =>
      let bd : BitcoinData := ⟨md.price_eur, md.price_usd, pc.1, some md.fee⟩
      (some bd, ⟨some bd, some now⟩, m.2.1, m.2.2 + pc.2)
    | none =>
      let fr := api_request_with_backoff fallback_fetch 5 1
      match fr.1 with
      | Except.ok bd => (some bd, ⟨some bd, some now⟩, m.2.1, m.2.2 + pc.2 + fr.2.1)
      | Except.error _ => (none, bitcoin_cache, m.2.1, m.2.2 + pc.2 + fr.2.1)

/-- A wrapped operation that succeeds on the first invocation is invoked
exactly once, with no sleep. -/
theorem backoffAux_ok_first {T : Type} (func : Nat → Except PyErr T) (v : T)
    (initial_delay fuel r : Nat) (hr : func r = Except.ok v) (hf : 1 ≤ fuel) :
    backoffAux func initial_delay fuel r = (Except.ok v, 1, 0) := by
  cases fuel with
  | zero => omega
  | succ n => rw [backoffAux, hr]

/-- A cache that is stale at `now` stays stale at any later instant,
because a failed refresh does not advance `last_updated`. -/
theorem cache_is_fresh_mono {T : Type} (c : CacheState T) (now now' : Int)
    (h : cache_is_fresh c now = false) (hle : now ≤ now') :
    cache_is_fresh c now' = false := by
  unfold cache_is_fresh at h ⊢
  cases hc : c.last_updated with
  | none => rfl
  | some lu =>
    rw [hc] at h
    simp only [decide_eq_false_iff_not, not_lt] at h ⊢
    omega

/-- When the mempool cache is stale and every fetch invocation fails,
`get_mempool_data` returns `None` and leaves the cache unchanged. -/
theorem get_mempool_data_all_fail (fetch : Nat → Except PyErr MempoolData)
    (now : Int) (cache : CacheState MempoolData)
    (hstale : cache_is_fresh cache now = false)
    (hfail : ∀ i, ∃ e, fetch i = Except.error e) :
    (get_mempool_data fetch now cache).1 = none ∧
    (get_mempool_data fetch now cache).2.1 = cache := by
  obtain ⟨e, he⟩ := backoffAux_error_of_all_fail fetch 1 hfail 5 0
  have he' : (api_request_with_backoff fetch 5 1).1 = Except.error e := he
  simp [get_mempool_data, hstale, he']

/-- When the mempool cache is stale, `get_mempool_data` invokes the fetch
closure at least once. -/
theorem get_mempool_data_invokes (fetch : Nat → Except PyErr MempoolData)
    (now : Int) (cache : CacheState MempoolData)
    (hstale : cache_is_fresh cache now = false) :
    1 ≤ (get_mempool_data fetch now cache).2.2 := by
  have h := backoffAux_invocations_pos fetch 1 5 0 (by omega)
  simp only [get_mempool_data, hstale, Bool.false_eq_true, if_false]
  cases hm : (api_request_with_backoff fetch 5 1).1 with
  | ok d => simpa [hm] using h
  | error e => simpa [hm] using h

/-- `get_coingecko_price_change` always invokes its fetch closure at
least once. -/
theorem get_coingecko_price_change_invokes (cf : Nat → Except PyErr Int) :
    1 ≤ (get_coingecko_price_change cf).2 := by
  have h := backoffAux_invocations_pos cf 1 5 0 (by omega)
  simp only [get_coingecko_price_change]
  cases hm : (api_request_with_backoff cf 5 1).1 with
  | ok d => simpa [hm] using h
  | error e => simpa [hm] using h

/-- When both caches are stale, every mempool fetch fails and every
fallback fetch fails, `get_bitcoin_price` returns `None` and leaves the
bitcoin cache unchanged. -/
theorem get_bitcoin_price_all_fail (mf : Nat → Except PyErr MempoolData)
    (cf : Nat → Except PyErr Int) (ff : Nat → Except PyErr BitcoinData)
    (now : Int) (mc : CacheState MempoolData) (bc : CacheState BitcoinData)
    (hb : cache_is_fresh bc now = false)
    (hmstale : cache_is_fresh mc now = false)
    (hmfail : ∀ i, ∃ e, mf i = Except.error e)
    (hffail : ∀ i, ∃ e, ff i = Except.error e) :
    (get_bitcoin_price mf cf ff now mc bc).1 = none ∧
    (get_bitcoin_price mf cf ff now mc bc).2.1 = bc := by
  have hm := get_mempool_data_all_fail mf now mc hmstale hmfail
  obtain ⟨ef, hef⟩ := backoffAux_error_of_all_fail ff 1 hffail 5 0
  have hef' : (api_request_with_backoff ff 5 1).1 = Except.error ef := hef
  have hmr : api_request_with_backoff
      (fun _ => Except.ok (get_mempool_data mf now mc)) 5 1 =
      (Except.ok (get_mempool_data mf now mc), 1, 0) :=
    backoffAux_ok_first _ _ 1 5 0 rfl (by omega)
  have hpcr : api_request_with_backoff
      (fun _ => Except.ok (get_coingecko_price_change cf)) 5 1 =
      (Except.ok (get_coingecko_price_change cf), 1, 0) :=
    backoffAux_ok_first _ _ 1 5 0 rfl (by omega)
  simp [get_bitcoin_price, hb, hmr, hpcr, hm.1, hef']

/-- When the bitcoin cache is stale, `get_bitcoin_price` performs at
least one underlying fetch invocation. -/
theorem get_bitcoin_price_invokes (mf : Nat → Except PyErr MempoolData)
    (cf : Nat → Except PyErr Int) (ff : Nat → Except PyErr BitcoinData)
    (now : Int) (mc : CacheState MempoolData) (bc : CacheState BitcoinData)
    (hb : cache_is_fresh bc now = false) :
    1 ≤ (get_bitcoin_price mf cf ff now mc bc).2.2.2 := by
  have hpc := get_coingecko_price_change_invokes cf
  have hmr : api_request_with_backoff
      (fun _ => Except.ok (get_mempool_data mf now mc)) 5 1 =
      (Except.ok (get_mempool_data mf now mc), 1, 0) :=
    backoffAux_ok_first _ _ 1 5 0 rfl (by omega)
  have hpcr : api_request_with_backoff
      (fun _ => Except.ok (get_coingecko_price_change cf)) 5 1 =
      (Except.ok (get_coingecko_price_change cf), 1, 0) :=
    backoffAux_ok_first _ _ 1 5 0 rfl (by omega)
  simp only [get_bitcoin_price, hb, Bool.false_eq_true, if_false, hmr, hpcr]
  cases hm : (get_mempool_data mf now mc).1 with
  | some md => simpa using by omega
  | none =>
    cases hf : (api_request_with_backoff ff 5 1).1 with
    | ok bd => simpa using by omega
    | error e => simpa using by omega

/-- C6: a failed underlying fetch makes the cache read fail for that call
(it returns no data rather than a previously cached success value), the
cached value and its timestamp stay unchanged, and an immediately
following call (at any instant not before the failing one) attempts the
fetch again.  Stated for both cache instances, `MEMPOOL_CACHE` via
`get_mempool_data` and `BITCOIN_CACHE` via `get_bitcoin_price`. -/
theorem cache_failure_isolation
    (fetch1 fetch2 mf : Nat → Except PyErr MempoolData)
    (cf : Nat → Except PyErr Int) (ff : Nat → Except PyErr BitcoinData)
    (now now2 : Int) (mc : CacheState MempoolData) (bc : CacheState BitcoinData)
    (hstale : cache_is_fresh mc now = false)
    (hfail : ∀ i, ∃ e, fetch1 i = Except.error e)
    (hle : now ≤ now2)
    (hbstale : cache_is_fresh bc now = false)
    (hmfail : ∀ i, ∃ e, mf i = Except.error e)
    (hffail : ∀ i, ∃ e, ff i = Except.error e) :
    (get_mempool_data fetch1 now mc).1 = none ∧
    (get_mempool_data fetch1 now mc).2.1 = mc ∧
    1 ≤ (get_mempool_data fetch2 now2 (get_mempool_data fetch1 now mc).2.1).2.2 ∧
    (get_bitcoin_price mf cf ff now mc bc).1 = none ∧
    (get_bitcoin_price mf cf ff now mc bc).2.1 = bc ∧
    1 ≤ (get_bitcoin_price mf cf ff now2 mc
          (get_bitcoin_price mf cf ff now mc bc).2.1).2.2.2 := by
  have h1 := get_mempool_data_all_fail fetch1 now mc hstale hfail
  have h2 := get_bitcoin_price_all_fail mf cf ff now mc bc hbstale hstale hmfail hffail
  refine ⟨h1.1, h1.2, ?_, h2.1, h2.2, ?_⟩
  · rw [h1.2]
    exact get_mempool_data_invokes fetch2 now2 mc (cache_is_fresh_mono mc now now2 hstale hle)
  · rw [h2.2]
    exact get_bitcoin_price_invokes mf cf ff now2 mc bc
      (cache_is_fresh_mono bc now now2 hbstale hle)

/-- Closed instance of `cache_failure_isolation`: starting from empty
caches with every fetch failing, both reads return no data and leave the
caches unchanged. -/
theorem cache_failure_isolation_witness :
    (get_mempool_data (fun _ => Except.error (PyErr.otherError 0)) 0
      ⟨none, none⟩).1 = none ∧
    (get_bitcoin_price (fun _ => Except.error (PyErr.otherError 0))
      (fun _ => Except.error (PyErr.otherError 1))
      (fun _ => Except.error (PyErr.otherError 2)) 0 ⟨none, none⟩
      ⟨none, none⟩).2.1 = (⟨none, none⟩ : CacheState BitcoinData) := by
  have h := cache_failure_isolation
    (fun _ => Except.error (PyErr.otherError 0))
    (fun _ => Except.error (PyErr.otherError 0))
    (fun _ => Except.error (PyErr.otherError 0))
    (fun _ => Except.error (PyErr.otherError 1))
    (fun _ => Except.error (PyErr.otherError 2))
    0 0 ⟨none, none⟩ ⟨none, none⟩ rfl (fun _ => ⟨PyErr.otherError 0, rfl⟩)
    le_rfl rfl (fun _ => ⟨PyErr.otherError 0, rfl⟩)
    (fun _ => ⟨PyErr.otherError 2, rfl⟩)
  exact ⟨h.1, h.2.2.2.2.1⟩

/-- C7: with the 60-second TTL, a fresh cache is returned without any
fetch invocation (for both cache instances); starting from an empty
mempool cache, a successful call at `t0` performs one fetch invocation
and a second call less than 60 seconds later performs none and returns
the cached data, so the two calls invoke the fetch exactly once in total;
a call 61 or more seconds after `t0` fetches again and, on success,
replaces the cached value stamped with the current time. -/
theorem cache_freshness
    (f0 : Nat → Except PyErr MempoolData) (c0 : CacheState MempoolData) (now0 : Int)
    (hfresh : cache_is_fresh c0 now0 = true)
    (mf : Nat → Except PyErr MempoolData) (cf : Nat → Except PyErr Int)
    (ff : Nat → Except PyErr BitcoinData) (mc : CacheState MempoolData)
    (bc : CacheState BitcoinData) (nowb : Int)
    (hbfresh : cache_is_fresh bc nowb = true)
    (fetchA fetchB fetchX : Nat → Except PyErr MempoolData) (t0 d1 d2 : Int)
    (dA dB : MempoolData)
    (hA : fetchA 0 = Except.ok dA) (hB : fetchB 0 = Except.ok dB)
    (hd1a : 0 ≤ d1) (hd1b : d1 < 60) (hd2 : 61 ≤ d2) :
    get_mempool_data f0 now0 c0 = (c0.data, c0, 0) ∧
    get_bitcoin_price mf cf ff nowb mc bc = (bc.data, bc, mc, 0) ∧
    get_mempool_data fetchA t0 ⟨none, none⟩ = (some dA, ⟨some dA, some t0⟩, 1) ∧
    get_mempool_data fetchX (t0 + d1) ⟨some dA, some t0⟩ =
      (some dA, ⟨some dA, some t0⟩, 0) ∧
    get_mempool_data fetchB (t0 + d2) ⟨some dA, some t0⟩ =
      (some dB, ⟨some dB, some (t0 + d2)⟩, 1) := by
  refine ⟨?_, ?_, ?_, ?_, ?_⟩
  · simp [get_mempool_data, hfresh]
  · simp [get_bitcoin_price, hbfresh]
  · have hempty : cache_is_fresh (⟨none, none⟩ : CacheState MempoolData) t0 = false := rfl
    have hok : api_request_with_backoff fetchA 5 1 = (Except.ok dA, 1, 0) :=
      backoffAux_ok_first fetchA dA 1 5 0 hA (by omega)
    simp [get_mempool_data, hempty, hok]
  · have hfr : cache_is_fresh (⟨some dA, some t0⟩ : CacheState MempoolData) (t0 + d1)
        = true := by
      simp only [cache_is_fresh, decide_eq_true_eq]
      omega
    simp [get_mempool_data, hfr]
  · have hfr : cache_is_fresh (⟨some dA, some t0⟩ : CacheState MempoolData) (t0 + d2)
        = false := by
      simp only [cache_is_fresh, decide_eq_false_iff_not, not_lt]
      omega
    have hok : api_request_with_backoff fetchB 5 1 = (Except.ok dB, 1, 0) :=
      backoffAux_ok_first fetchB dB 1 5 0 hB (by omega)
    simp [get_mempool_data, hfr, hok]

/-- Closed instance of `cache_freshness` on concrete caches, fetchers and
instants. -/
theorem cache_freshness_witness :
    get_mempool_data (fun _ => Except.ok ⟨1, 2, 3⟩) 10
      ⟨some ⟨9, 9, 9⟩, some 0⟩ = (some ⟨9, 9, 9⟩, ⟨some ⟨9, 9, 9⟩, some 0⟩, 0) ∧
    get_mempool_data (fun _ => Except.ok ⟨1, 2, 3⟩) 100 ⟨none, none⟩ =
      (some ⟨1, 2, 3⟩, ⟨some ⟨1, 2, 3⟩, some 100⟩, 1) := by
  have h := cache_freshness
    (fun _ => Except.ok ⟨1, 2, 3⟩) ⟨some ⟨9, 9, 9⟩, some 0⟩ 10 rfl
    (fun _ => Except.ok ⟨1, 2, 3⟩) (fun _ => Except.ok 0)
    (fun _ => Except.ok ⟨1, 1, none, none⟩) ⟨none, none⟩
    ⟨some ⟨1, 1, none, none⟩, some 0⟩ 5 rfl
    (fun _ => Except.ok ⟨1, 2, 3⟩) (fun _ => Except.ok ⟨4, 5, 6⟩)
    (fun _ => Except.ok ⟨7, 8, 9⟩) 100 30 70 ⟨1, 2, 3⟩ ⟨4, 5, 6⟩ rfl rfl
    (by omega) (by omega) (by omega)
  exact ⟨h.1, h.2.2.1⟩

/-- C10: implicitly, the backoff wrapper never retries when applied to an
operation that always returns normally.  The cache-level fetchers
`get_mempool_data` and `get_bitcoin_price` catch every fetch exception
internally and return `None`, so wrapping them (as `get_bitcoin_price`
line 185 and the price loop line 245 do) results in exactly one
invocation, no sleep, and a successful `None` result even when every
underlying fetch fails. -/
theorem backoff_on_total_fetchers {T : Type} (g : Nat → T)
    (fetch mf : Nat → Except PyErr MempoolData) (cf : Nat → Except PyErr Int)
    (ff : Nat → Except PyErr BitcoinData) (now : Int)
    (mc : CacheState MempoolData) (bc : CacheState BitcoinData)
    (hstale : cache_is_fresh mc now = false)
    (hfail : ∀ i, ∃ e, fetch i = Except.error e) :
    api_request_with_backoff (fun i => Except.ok (g i)) 5 1 = (Except.ok (g 0), 1, 0) ∧
    api_request_with_backoff (fun _ => Except.ok (get_mempool_data fetch now mc).1) 5 1 =
      (Except.ok none, 1, 0) ∧
    api_request_with_backoff
        (fun _ => Except.ok (get_bitcoin_price mf cf ff now mc bc).1) 5 1 =
      (Except.ok (get_bitcoin_price mf cf ff now mc bc).1, 1, 0) := by
  refine ⟨backoffAux_ok_first _ _ 1 5 0 rfl (by omega), ?_,
    backoffAux_ok_first _ _ 1 5 0 rfl (by omega)⟩
  have h := get_mempool_data_all_fail fetch now mc hstale hfail
  have : (fun (_ : Nat) =>
        (Except.ok (get_mempool_data fetch now mc).1 :
          Except PyErr (Option MempoolData))) =
      fun _ => (Except.ok none : Except PyErr (Option MempoolData)) := by
    funext i
    rw [h.1]
  rw [this]
  exact backoffAux_ok_first _ _ 1 5 0 rfl (by omega)

/-- Closed instance of `backoff_on_total_fetchers` with empty caches and
always-failing fetches. -/
theorem backoff_on_total_fetchers_witness :
    api_request_with_backoff
      (fun _ => Except.ok
        (get_mempool_data (fun _ => Except.error (PyErr.otherError 0)) 0
          ⟨none, none⟩).1) 5 1 = (Except.ok none, 1, 0) :=
  (backoff_on_total_fetchers (fun i => i)
    (fun _ => Except.error (PyErr.otherError 0))
    (fun _ => Except.error (PyErr.otherError 0))
    (fun _ => Except.error (PyErr.otherError 1))
    (fun _ => Except.error (PyErr.otherError 2)) 0 ⟨none, none⟩ ⟨none, none⟩
    rfl (fun _ => ⟨PyErr.otherError 0, rfl⟩)).2.1

/-- The global `LAST_NOTIFIED_PRICE` dict (telegram_bot.py line 57): last
seen price, the ascending list of tracked thresholds, and the list of
thresholds already notified. -/
structure LadderState where
  price : Int
  thresholds : List Int
  notified : List Int
deriving DecidableEq, Repr

/-- The notification loop of `check_and_notify_price_threshold`
(telegram_bot.py lines 227-229): walk the thresholds in order and, for
each threshold `t` with `price ≥ t` not yet notified, append `t` to
`notified` and emit one event.  Returns the final `notified` list and the
list of emitted events. -/
def notify_loop (price : Int) : List Int → List Int → List Int × List Int
  | [], notified => (notified, [])
  | t :: ts, notified =>
    if price ≥ t ∧ t ∉ notified then
      let r := notify_loop price ts (notified ++ [t])
      (r.1, t :: r.2)
    else
      notify_loop price ts notified

/-- `check_and_notify_price_threshold` (telegram_bot.py lines 217-239):
compute `next_threshold = (price // 1000 + 1) * 1000`, insert it into the
threshold list if absent (append then sort, as the Python does), run the
notification loop, and record the price.  Returns the new state and the
emitted events. -/
def check_and_notify_price_threshold (s : LadderState) (price : Int) :
    LadderState × List Int :=
  let next_threshold := (Int.fdiv price 1000 + 1) * 1000
  let ths := if next_threshold ∈ s.thresholds then s.thresholds
    else List.insertionSort (· ≤ ·) (s.thresholds ++ [next_threshold])
  let r := notify_loop price ths s.notified
  (⟨price, ths, r.1⟩, r.2)

/-- A sequence of calls to `check_and_notify_price_threshold`, returning
the final state and the concatenation of all emitted events. -/
def run_ladder (s : LadderState) : List Int → LadderState × List Int
  | [] => (s, [])
  | p :: ps =>
    let r := check_and_notify_price_threshold s p
    let rest := run_ladder r.1 ps
    (rest.1, r.2 ++ rest.2)

/-- C2: from the empty ladder state, `check_and_notify(30500)` inserts
threshold 31000 and emits nothing; a following `check_and_notify(31200)`
inserts 32000 and emits exactly one event, for 31000; a third call with
price 31500 emits no new event. -/
theorem ladder_scenario :
    (check_and_notify_price_threshold ⟨0, [], []⟩ 30500).1.thresholds = [31000] ∧
    (check_and_notify_price_threshold ⟨0, [], []⟩ 30500).2 = [] ∧
    (check_and_notify_price_threshold
      (check_and_notify_price_threshold ⟨0, [], []⟩ 30500).1 31200).1.thresholds =
        [31000, 32000] ∧
    (check_and_notify_price_threshold
      (check_and_notify_price_threshold ⟨0, [], []⟩ 30500).1 31200).2 = [31000] ∧
    (check_and_notify_price_threshold
      (check_and_notify_price_threshold
        (check_and_notify_price_threshold ⟨0, [], []⟩ 30500).1 31200).1 31500).2 =
        [] := by
  decide

/-- Elements already notified stay notified through the notification
loop. -/
theorem notify_loop_notified_superset (price : Int) (ths : List Int) :
    ∀ (notified : List Int) (x : Int), x ∈ notified →
      x ∈ (notify_loop price ths notified).1 := by
  induction ths with
  | nil => intro n x hx; simpa [notify_loop] using hx
  | cons t ts ih =>
    intro n x hx
    rw [notify_loop]
    by_cases hc : price ≥ t ∧ t ∉ n
    · simp only [if_pos hc]
      exact ih (n ++ [t]) x (by simp [hx])
    · simp only [if_neg hc]
      exact ih n x hx

/-- Every element of the final notified list was already notified or is
one of the processed thresholds. -/
theorem notify_loop_notified_from (price : Int) (ths : List Int) :
    ∀ (notified : List Int) (x : Int), x ∈ (notify_loop price ths notified).1 →
      x ∈ notified ∨ x ∈ ths := by
  induction ths with
  | nil => intro n x hx; exact Or.inl hx
  | cons t ts ih =>
    intro n x hx
    rw [notify_loop] at hx
    by_cases hc : price ≥ t ∧ t ∉ n
    · simp only [if_pos hc] at hx
      rcases ih (n ++ [t]) x hx with h | h
      · rcases List.mem_append.mp h with h' | h'
        · exact Or.inl h'
        · simp only [List.mem_singleton] at h'
          exact Or.inr (by simp [h'])
      · exact Or.inr (by simp [h])
    · simp only [if_neg hc] at hx
      rcases ih n x hx with h | h
      · exact Or.inl h
      · exact Or.inr (by simp [h])

/-- The emitted events form a sublist of the processed thresholds. -/
theorem notify_loop_events_sublist (price : Int) (ths : List Int) :
    ∀ notified : List Int, (notify_loop price ths notified).2.Sublist ths := by
  induction ths with
  | nil => intro n; simp [notify_loop]
  | cons t ts ih =>
    intro n
    rw [notify_loop]
    by_cases hc : price ≥ t ∧ t ∉ n
    · simp only [if_pos hc]
      exact (ih (n ++ [t])).cons₂ t
    · simp only [if_neg hc]
      exact (ih n).cons t

/-- Every emitted threshold ends up in the final notified list. -/
theorem notify_loop_emitted_mem_notified (price : Int) (ths : List Int) :
    ∀ (notified : List Int) (t : Int), t ∈ (notify_loop price ths notified).2 →
      t ∈ (notify_loop price ths notified).1 := by
  induction ths with
  | nil => intro n t ht; simp [notify_loop] at ht
  | cons hd ts ih =>
    intro n t ht
    rw [notify_loop] at ht ⊢
    by_cases hc : price ≥ hd ∧ hd ∉ n
    · simp only [if_pos hc] at ht ⊢
      rcases List.mem_cons.mp ht with h | h
      · subst h
        exact notify_loop_notified_superset price ts (n ++ [t]) t (by simp)
      · exact ih (n ++ [hd]) t h
    · simp only [if_neg hc] at ht ⊢
      exact ih n t ht

/-- A threshold already in the notified list is never emitted again. -/
theorem notify_loop_no_repeat (price : Int) (ths : List Int) :
    ∀ (notified : List Int) (t : Int), t ∈ notified →
      t ∉ (notify_loop price ths notified).2 := by
  induction ths with
  | nil => intro n t ht; simp [notify_loop]
  | cons hd ts ih =>
    intro n t ht
    rw [notify_loop]
    by_cases hc : price ≥ hd ∧ hd ∉ n
    · simp only [if_pos hc]
      intro hmem
      rcases List.mem_cons.mp hmem with h | h
      · exact hc.2 (h ▸ ht)
      · exact ih (n ++ [hd]) t (by simp [ht]) h
    · simp only [if_neg hc]
      exact ih n t ht

/-- Appending the new threshold and sorting preserves strict ascending
order, and keeps every old threshold. -/
theorem thresholds_update_sorted (l : List Int) (nt : Int)
    (h : l.Sorted (· < ·)) :
    (if nt ∈ l then l else List.insertionSort (· ≤ ·) (l ++ [nt])).Sorted (· < ·) ∧
    ∀ x ∈ l, x ∈ (if nt ∈ l then l else List.insertionSort (· ≤ ·) (l ++ [nt])) := by
  by_cases hmem : nt ∈ l
  · simp only [if_pos hmem]
    exact ⟨h, fun x hx => hx⟩
  · simp only [if_neg hmem]
    have hperm := List.perm_insertionSort (· ≤ ·) (l ++ [nt])
    have hnodup : (l ++ [nt]).Nodup := by
      simp [List.nodup_append, h.nodup, hmem]
    have hsortle := List.sorted_insertionSort (· ≤ ·) (l ++ [nt])
    refine ⟨hsortle.lt_of_le (hperm.nodup_iff.mpr hnodup), ?_⟩
    intro x hx
    exact hperm.mem_iff.mpr (by simp [hx])

/-- Per-call invariant preservation for the threshold ladder: the updated
thresholds stay strictly ascending, the updated notified list stays a
subset of the thresholds, and no notified element is removed. -/
theorem check_and_notify_inv (s : LadderState) (p : Int)
    (hsort : s.thresholds.Sorted (· < ·))
    (hsub : ∀ x ∈ s.notified, x ∈ s.thresholds) :
    (check_and_notify_price_threshold s p).1.thresholds.Sorted (· < ·) ∧
    (∀ x ∈ (check_and_notify_price_threshold s p).1.notified,
      x ∈ (check_and_notify_price_threshold s p).1.thresholds) ∧
    (∀ x ∈ s.notified, x ∈ (check_and_notify_price_threshold s p).1.notified) := by
  have hupd := thresholds_update_sorted s.thresholds
    ((Int.fdiv p 1000 + 1) * 1000) hsort
  refine ⟨hupd.1, ?_, ?_⟩
  · intro x hx
    rcases notify_loop_notified_from p _ s.notified x hx with h | h
    · exact hupd.2 x (hsub x h)
    · exact h
  · intro x hx
    exact notify_loop_notified_superset p _ s.notified x hx

/-- A threshold already notified at the start of a run is never emitted
during the run. -/
theorem run_ladder_no_events_of_notified (t : Int) :
    ∀ (ps : List Int) (s : LadderState), t ∈ s.notified →
      t ∉ (run_ladder s ps).2 := by
  intro ps
  induction ps with
  | nil => intro s ht; simp [run_ladder]
  | cons p rest ih =>
    intro s ht
    rw [run_ladder]
    simp only [List.mem_append, not_or]
    constructor
    · exact notify_loop_no_repeat p _ s.notified t ht
    · exact ih _ (notify_loop_notified_superset p _ s.notified t ht)

/-- Over any run of the ladder from a state satisfying the invariant,
each threshold value is emitted at most once. -/
theorem run_ladder_count_le_one (t : Int) :
    ∀ (ps : List Int) (s : LadderState), s.thresholds.Sorted (· < ·) →
      (∀ x ∈ s.notified, x ∈ s.thresholds) →
      ((run_ladder s ps).2.count t) ≤ 1 := by
  intro ps
  induction ps with
  | nil => intro s _ _; simp [run_ladder]
  | cons p rest ih =>
    intro s hsort hsub
    have hinv := check_and_notify_inv s p hsort hsub
    rw [run_ladder]
    simp only [List.count_append]
    have hnodup : (check_and_notify_price_threshold s p).2.Nodup :=
      ((notify_loop_events_sublist p _ s.notified).nodup hinv.1.nodup)
    by_cases hmem : t ∈ (check_and_notify_price_threshold s p).2
    · have h1 : (check_and_notify_price_threshold s p).2.count t ≤ 1 :=
        List.nodup_iff_count_le_one.mp hnodup t
      have h2 : (run_ladder (check_and_notify_price_threshold s p).1 rest).2.count t = 0 := by
        apply List.count_eq_zero.mpr
        apply run_ladder_no_events_of_notified
        exact notify_loop_emitted_mem_notified p _ s.notified t hmem
      omega
    · have h1 : (check_and_notify_price_threshold s p).2.count t = 0 :=
        List.count_eq_zero.mpr hmem
      have h2 := ih (check_and_notify_price_threshold s p).1 hinv.1 hinv.2.1
      omega

/-- C3: the ladder state invariant — the notified list is a subset of the
thresholds, the thresholds are strictly increasing, and no element is
ever removed from the notified list — is preserved by every call to
`check_and_notify_price_threshold`, and over any run with a
non-decreasing price sequence each threshold value is emitted at most
once. -/
theorem ladder_invariant (s : LadderState) (p : Int) (ps : List Int) (t : Int)
    (hsort : s.thresholds.Sorted (· < ·))
    (hsub : ∀ x ∈ s.notified, x ∈ s.thresholds)
    (hchain : ps.Chain' (· ≤ ·)) :
    ((check_and_notify_price_threshold s p).1.thresholds.Sorted (· < ·) ∧
     (∀ x ∈ (check_and_notify_price_threshold s p).1.notified,
        x ∈ (check_and_notify_price_threshold s p).1.thresholds) ∧
     (∀ x ∈ s.notified, x ∈ (check_and_notify_price_threshold s p).1.notified)) ∧
    (run_ladder s ps).2.count t ≤ 1 :=
  ⟨check_and_notify_inv s p hsort hsub, run_ladder_count_le_one t ps s hsort hsub⟩

/-- Closed instance of `ladder_invariant` on the empty state and the
non-decreasing price sequence of the C2 scenario. -/
theorem ladder_invariant_witness :
    ((check_and_notify_price_threshold ⟨0, [], []⟩ 30500).1.thresholds.Sorted (· < ·) ∧
     (∀ x ∈ (check_and_notify_price_threshold ⟨0, [], []⟩ 30500).1.notified,
        x ∈ (check_and_notify_price_threshold ⟨0, [], []⟩ 30500).1.thresholds) ∧
     (∀ x ∈ ([] : List Int),
        x ∈ (check_and_notify_price_threshold ⟨0, [], []⟩ 30500).1.notified)) ∧
    (run_ladder ⟨0, [], []⟩ [30500, 31200, 31500]).2.count 31000 ≤ 1 :=
  ladder_invariant ⟨0, [], []⟩ 30500 [30500, 31200, 31500] 31000
    (by simp) (by simp) (by norm_num [List.chain'_cons])

/-- Calendar days are integers; day 0 is a Monday, so
`weekdayOf d = d % 7` matches Python's `date.weekday()`
(Monday = 0 ... Sunday = 6). -/
def weekdayOf (d : Int) : Int := d % 7

/-- The `delivery_schedule` table of `get_postcard_send_date`
(telegram_bot.py lines 576-584): lead days keyed by the weekday of the
occurrence date. -/
def delivery_schedule (w : Int) : Int :=
  if w = 5 then 3 else if w = 6 then 2 else 1

/-- A business day: not a weekend (`weekday() >= 5`) and not in the
holiday calendar.  The holiday calendar is the injected capability
`hol : day → Bool` (the union over years of `holidays.NL(years=year)`). -/
def is_business_day (hol : Int → Bool) (d : Int) : Bool :=
  !(decide (weekdayOf d ≥ 5) || hol d)

/-- The retreat loop
`while send_date.weekday() >= 5 or send_date in nl_holidays: send_date -= timedelta(days=1)`
(telegram_bot.py lines 589-590), with fuel. -/
def retreat_to_business (hol : Int → Bool) : Nat → Int → Option Int
  | 0, _ => none
  | fuel + 1, d =>
    if is_business_day hol d then some d else retreat_to_business hol fuel (d - 1)

/-- The forward scan of `get_next_business_day` (telegram_bot.py lines
561-566) starting at a candidate day, with fuel. -/
def next_business_day_aux (hol : Int → Bool) : Nat → Int → Option Int
  | 0, _ => none
  | fuel + 1, d =>
    if is_business_day hol d then some d else next_business_day_aux hol fuel (d + 1)

/-- `get_next_business_day(date, holidays)` (telegram_bot.py lines
561-566): the earliest day strictly after `d` that is a business day. -/
def next_business_day (hol : Int → Bool) (fuel : Nat) (d : Int) : Option Int :=
  next_business_day_aux hol fuel (d + 1)

/-- The delivery-gap loop of `get_postcard_send_date` (telegram_bot.py
lines 592-595): while the next business day after `send` is more than 4
days away, retreat `send` by one day. -/
def gap_loop (hol : Int → Bool) : Nat → Nat → Int → Option Int
  | 0, _, _ => none
  | gfuel + 1, sfuel, send =>
    match next_business_day hol sfuel send with
    | none => none
    | some delivery =>
      if delivery - send > 4 then gap_loop hol gfuel sfuel (send - 1) else some send

/-- `get_postcard_send_date` (telegram_bot.py lines 568-597): subtract
the weekday-dependent lead days, retreat to a business day, then retreat
further while the recomputed delivery date is more than 4 days away. -/
def get_postcard_send_date (hol : Int → Bool) (birthday : Int) (fuel : Nat) :
    Option Int :=
  let send0 := birthday - delivery_schedule (weekdayOf birthday)
  match retreat_to_business hol fuel send0 with
  | none => none
  | some send1 => gap_loop hol fuel fuel send1

/-- The holiday calendar never produces 4 consecutive non-business
days. -/
def no_run_of_4 (hol : Int → Bool) : Prop :=
  ∀ d : Int, is_business_day hol d = true ∨ is_business_day hol (d + 1) = true ∨
    is_business_day hol (d + 2) = true ∨ is_business_day hol (d + 3) = true

/-- The holiday calendar never produces 5 consecutive non-business
days. -/
def no_run_of_5 (hol : Int → Bool) : Prop :=
  ∀ d : Int, is_business_day hol d = true ∨ is_business_day hol (d + 1) = true ∨
    is_business_day hol (d + 2) = true ∨ is_business_day hol (d + 3) = true ∨
    is_business_day hol (d + 4) = true

/-- The retreat loop succeeds when a business day exists within fuel
steps below the start, and its result is a business day. -/
theorem retreat_to_business_spec (hol : Int → Bool) :
    ∀ (fuel : Nat) (d : Int), (∃ k : Nat, k < fuel ∧ is_business_day hol (d - k) = true) →
      ∃ r, retreat_to_business hol fuel d = some r ∧ is_business_day hol r = true := by
  intro fuel
  induction fuel with
  | zero => intro d ⟨k, hk, _⟩; omega
  | succ n ih =>
    intro d ⟨k, hk, hbk⟩
    rw [retreat_to_business]
    by_cases hb : is_business_day hol d = true
    · exact ⟨d, by simp [hb], hb⟩
    · have hk0 : k ≠ 0 := by
        intro h0
        rw [h0] at hbk
        simp at hbk
        exact hb hbk
      have : ∃ k' : Nat, k' < n ∧ is_business_day hol (d - 1 - k') = true := by
        refine ⟨k - 1, by omega, ?_⟩
        have : d - 1 - (k - 1 : Nat) = d - k := by omega
        rw [this]
        exact hbk
      obtain ⟨r, hr, hrb⟩ := ih (d - 1) this
      exact ⟨r, by simp [hb, hr], hrb⟩

/-- The forward scan succeeds when a business day exists within fuel
steps, returning a business day no later than any such witness. -/
theorem next_business_day_aux_spec (hol : Int → Bool) :
    ∀ (fuel k : Nat) (d : Int), k < fuel → is_business_day hol (d + k) = true →
      ∃ r, next_business_day_aux hol fuel d = some r ∧ is_business_day hol r = true ∧
        d ≤ r ∧ r ≤ d + k := by
  intro fuel
  induction fuel with
  | zero => intro k d hk _; omega
  | succ n ih =>
    intro k d hk hbk
    rw [next_business_day_aux]
    by_cases hb : is_business_day hol d = true
    · exact ⟨d, by simp [hb], hb, le_refl d, by omega⟩
    · have hk0 : k ≠ 0 := by
        intro h0
        rw [h0] at hbk
        simp at hbk
        exact hb hbk
      have hbk' : is_business_day hol ((d + 1) + (k - 1 : Nat)) = true := by
        have : (d + 1) + (k - 1 : Nat) = d + k := by omega
        rw [this]
        exact hbk
      obtain ⟨r, hr, hrb, hlo, hhi⟩ := ih (k - 1) (d + 1) (by omega) hbk'
      exact ⟨r, by simp [hb, hr], hrb, by omega, by omega⟩

/-- `get_next_business_day` succeeds when a business day exists within
fuel steps strictly after `d`, with the same bound. -/
theorem next_business_day_spec (hol : Int → Bool) (fuel k : Nat) (d : Int)
    (hk : k < fuel) (hbk : is_business_day hol (d + 1 + k) = true) :
    ∃ r, next_business_day hol fuel d = some r ∧ is_business_day hol r = true ∧
      d + 1 ≤ r ∧ r ≤ d + 1 + k :=
  next_business_day_aux_spec hol fuel k (d + 1) hk hbk

/-- The next business day strictly after the day before a business day
`s` is `s` itself. -/
theorem next_business_day_pred (hol : Int → Bool) (fuel : Nat) (s : Int)
    (hb : is_business_day hol s = true) :
    next_business_day hol (fuel + 1) (s - 1) = some s := by
  unfold next_business_day
  have h : s - 1 + 1 = s := by omega
  rw [h, next_business_day_aux, if_pos hb]

/-- The gap loop returns its argument when the delivery gap is already
within 4 days. -/
theorem gap_loop_exit (hol : Int → Bool) (g s : Nat) (send dl : Int)
    (hnbd : next_business_day hol s send = some dl) (hle : dl - send ≤ 4) :
    gap_loop hol (g + 1) s send = some send := by
  rw [gap_loop, hnbd]
  show (if dl - send > 4 then gap_loop hol g s (send - 1) else some send) = some send
  rw [if_neg (by omega)]

/-- When the initial delivery gap exceeds 4 days, the gap loop retreats
exactly once: after one decrement the delivery date is the old (business)
send date, so the gap becomes 1. -/
theorem gap_loop_retreat_once (hol : Int → Bool) (g s : Nat) (send dl : Int)
    (hbus : is_business_day hol send = true)
    (hnbd : next_business_day hol (s + 1) send = some dl) (hgt : dl - send > 4) :
    gap_loop hol (g + 2) (s + 1) send = some (send - 1) := by
  rw [gap_loop, hnbd]
  show (if dl - send > 4 then gap_loop hol (g + 1) (s + 1) (send - 1) else some send) =
    some (send - 1)
  rw [if_pos hgt, gap_loop, next_business_day_pred hol s send hbus]
  show (if send - (send - 1) > 4 then gap_loop hol g (s + 1) (send - 1 - 1)
    else some (send - 1)) = some (send - 1)
  rw [if_neg (by omega)]

/-- Under `no_run_of_4`, every day has a business day at distance at most
3 at or after it. -/
theorem exists_business_in_4 (hol : Int → Bool) (hcal : no_run_of_4 hol) (d : Int) :
    ∃ k : Nat, k ≤ 3 ∧ is_business_day hol (d + k) = true := by
  rcases hcal d with h | h | h | h
  · exact ⟨0, by omega, by simpa using h⟩
  · exact ⟨1, by omega, by simpa using h⟩
  · exact ⟨2, by omega, by simpa using h⟩
  · exact ⟨3, by omega, by simpa using h⟩

/-- Under `no_run_of_5`, every day has a business day at distance at most
4 at or after it. -/
theorem exists_business_in_5 (hol : Int → Bool) (hcal : no_run_of_5 hol) (d : Int) :
    ∃ k : Nat, k ≤ 4 ∧ is_business_day hol (d + k) = true := by
  rcases hcal d with h | h | h | h | h
  · exact ⟨0, by omega, by simpa using h⟩
  · exact ⟨1, by omega, by simpa using h⟩
  · exact ⟨2, by omega, by simpa using h⟩
  · exact ⟨3, by omega, by simpa using h⟩
  · exact ⟨4, by omega, by simpa using h⟩

/-- C1 (amended): for every occurrence date and every holiday calendar
with no run of 4 or more consecutive non-business days, the computed send
date satisfies all three bounds: the recomputed delivery date is at most
4 days after the send date, the send date is a business day (neither
weekend nor holiday), and the delivery date is a business day.  (As
stated for arbitrary calendars the claim is false, see
`postcard_deadline_counterexample`: a calendar with a 5-day non-business
run drives the gap loop to retreat onto a holiday.) -/
theorem postcard_deadline_bound (hol : Int → Bool) (birthday : Int)
    (hcal : no_run_of_4 hol) :
    ∃ s d, get_postcard_send_date hol birthday 10 = some s ∧
      next_business_day hol 10 s = some d ∧ d - s ≤ 4 ∧
      is_business_day hol s = true ∧ is_business_day hol d = true := by
  have hex : ∃ k : Nat, k < 10 ∧ is_business_day hol
      ((birthday - delivery_schedule (weekdayOf birthday)) - k) = true := by
    obtain ⟨k', hk', hb⟩ := exists_business_in_4 hol hcal
      ((birthday - delivery_schedule (weekdayOf birthday)) - 3)
    refine ⟨3 - k', by omega, ?_⟩
    have heq : (birthday - delivery_schedule (weekdayOf birthday)) - ((3 - k' : Nat) : Int) =
        ((birthday - delivery_schedule (weekdayOf birthday)) - 3) + (k' : Int) := by
      omega
    rw [heq]
    exact hb
  obtain ⟨s, hseq, hsbus⟩ := retreat_to_business_spec hol 10
    (birthday - delivery_schedule (weekdayOf birthday)) hex
  obtain ⟨k, hk, hbk⟩ := exists_business_in_4 hol hcal (s + 1)
  obtain ⟨d, hdeq, hdbus, hdlo, hdhi⟩ :=
    next_business_day_spec hol 10 k s (by omega) hbk
  have hpost : get_postcard_send_date hol birthday 10 = gap_loop hol 10 10 s := by
    show (match retreat_to_business hol 10
        (birthday - delivery_schedule (weekdayOf birthday)) with
      | none => none
      | some send1 => gap_loop hol 10 10 send1) = gap_loop hol 10 10 s
    rw [hseq]
  have hgap : d - s ≤ 4 := by omega
  refine ⟨s, d, ?_, hdeq, hgap, hsbus, hdbus⟩
  rw [hpost]
  exact gap_loop_exit hol 9 10 s d hdeq hgap

/-- Closed instance of `postcard_deadline_bound` for the empty holiday
calendar (weekends only) and occurrence day 0. -/
theorem postcard_deadline_bound_witness :
    ∃ s d, get_postcard_send_date (fun _ => false) 0 10 = some s ∧
      next_business_day (fun _ => false) 10 s = some d ∧ d - s ≤ 4 ∧
      is_business_day (fun _ => false) s = true ∧
      is_business_day (fun _ => false) d = true :=
  postcard_deadline_bound (fun _ => false) 0 (by
    intro d
    simp only [is_business_day, weekdayOf, Bool.or_false, Bool.not_eq_true',
      decide_eq_false_iff_not, not_le]
    omega)

/-- C1 counterexample: with occurrence day 13 (a Sunday) and the holiday
calendar `{10, 14, 15}` (Thursday before, Monday and Tuesday after the
weekend 12-13), the code returns send date 10, which is itself a holiday:
the claim's send-date clause fails for this calendar. -/
theorem postcard_deadline_counterexample :
    get_postcard_send_date (fun d => decide (d = 10 ∨ d = 14 ∨ d = 15)) 13 10 =
      some 10 ∧
    is_business_day (fun d => decide (d = 10 ∨ d = 14 ∨ d = 15)) 10 = false := by
  decide

/-- C9: under the precondition that the holiday calendar never yields 5
or more consecutive non-business days, the send-date computation (and in
particular its retreat loop) terminates for every occurrence date: fuel
10 suffices for every loop. -/
theorem postcard_terminates (hol : Int → Bool) (birthday : Int)
    (hcal : no_run_of_5 hol) :
    (get_postcard_send_date hol birthday 10).isSome = true := by
  have hex : ∃ k : Nat, k < 10 ∧ is_business_day hol
      ((birthday - delivery_schedule (weekdayOf birthday)) - k) = true := by
    obtain ⟨k', hk', hb⟩ := exists_business_in_5 hol hcal
      ((birthday - delivery_schedule (weekdayOf birthday)) - 4)
    refine ⟨4 - k', by omega, ?_⟩
    have heq : (birthday - delivery_schedule (weekdayOf birthday)) - ((4 - k' : Nat) : Int) =
        ((birthday - delivery_schedule (weekdayOf birthday)) - 4) + (k' : Int) := by
      omega
    rw [heq]
    exact hb
  obtain ⟨s, hseq, hsbus⟩ := retreat_to_business_spec hol 10
    (birthday - delivery_schedule (weekdayOf birthday)) hex
  obtain ⟨k, hk, hbk⟩ := exists_business_in_5 hol hcal (s + 1)
  obtain ⟨d, hdeq, hdbus, hdlo, hdhi⟩ :=
    next_business_day_spec hol 10 k s (by omega) hbk
  have hpost : get_postcard_send_date hol birthday 10 = gap_loop hol 10 10 s := by
    show (match retreat_to_business hol 10
        (birthday - delivery_schedule (weekdayOf birthday)) with
      | none => none
      | some send1 => gap_loop hol 10 10 send1) = gap_loop hol 10 10 s
    rw [hseq]
  rw [hpost]
  by_cases hgap : d - s ≤ 4
  · rw [gap_loop_exit hol 9 10 s d hdeq hgap]
    rfl
  · have honce : gap_loop hol 10 10 s = some (s - 1) :=
      gap_loop_retreat_once hol 8 9 s d hsbus hdeq (by omega)
    rw [honce]
    rfl

/-- Closed instance of `postcard_terminates` for the empty holiday
calendar and occurrence day 0. -/
theorem postcard_terminates_witness :
    (get_postcard_send_date (fun _ => false) 0 10).isSome = true :=
  postcard_terminates (fun _ => false) 0 (by
    intro d
    simp only [is_business_day, weekdayOf, Bool.or_false, Bool.not_eq_true',
      decide_eq_false_iff_not, not_le]
    omega)

/-- Gregorian leap-year rule, as implemented by Python's
`datetime.date`. -/
def isLeapYear (y : Int) : Bool :=
  (decide (y % 4 = 0) && decide (y % 100 ≠ 0)) || decide (y % 400 = 0)

/-- Number of days in a month of a given year. -/
def days_in_month (y m : Int) : Int :=
  if m = 2 then (if isLeapYear y then 29 else 28)
  else if m = 4 ∨ m = 6 ∨ m = 9 ∨ m = 11 then 30
  else 31

/-- The constructibility test of `datetime.date(y, m, d)` (and of
`date.replace`): Python accepts years 1..9999 and a day within the
month. -/
def isValidDate (y m d : Int) : Bool :=
  decide (1 ≤ y) && decide (y ≤ 9999) && decide (1 ≤ m) && decide (m ≤ 12) &&
  decide (1 ≤ d) && decide (d ≤ days_in_month y m)

/-- A `datetime.date` value. -/
structure PyDate where
  year : Int
  month : Int
  day : Int
deriving DecidableEq, Repr

/-- `datetime.date(y, m, d)` and `date.replace`: `none` models the
`ValueError` raised on an unconstructible triple. -/
def mkDate (y m d : Int) : Option PyDate :=
  if isValidDate y m d then some ⟨y, m, d⟩ else none

/-- Python's `date < date` comparison: lexicographic on
(year, month, day), which agrees with chronological order on valid dates
(`toOrdinal_lt_iff` below). -/
def pyDateLt (a b : PyDate) : Bool :=
  decide (a.year < b.year) ||
  (decide (a.year = b.year) &&
    (decide (a.month < b.month) ||
      (decide (a.month = b.month) && decide (a.day < b.day))))

/-- Days contributed by the 400-year eras and year-of-era of a
March-shifted year, following the standard civil-calendar day-count
algorithm. -/
def era_part (z : Int) : Int :=
  (z / 400) * 146097 + (z % 400) * 365 + (z % 400) / 4 - (z % 400) / 100

/-- March-based month index: March is 0, ..., February is 11. -/
def mp_of (m : Int) : Int := (m + 9) % 12

/-- Day of the March-based year, 0 for March 1 up to 365 for a
February 29. -/
def doy_of (m d : Int) : Int := (153 * mp_of m + 2) / 5 + d - 1

/-- Day number of a civil date (0 = 1970-01-01); equals Python's
`date.toordinal()` up to a fixed offset, which cancels in every
difference the code takes. -/
def days_from_civil (y m d : Int) : Int :=
  era_part (if m ≤ 2 then y - 1 else y) + doy_of m d - 719468

/-- The day number of a date, for modelling `date` subtraction. -/
def toOrdinal (a : PyDate) : Int := days_from_civil a.year a.month a.day

/-- `(a - b).days` on Python dates. -/
def days_until (a b : PyDate) : Int := toOrdinal a - toOrdinal b

/-- The shared next-occurrence computation of `get_next_birthday`,
`send_birthdays`, `get_upcoming_birthdays` and `check_next_birthday`
(telegram_bot.py lines 497-501, 337-341, 517-520, 613-621):
`birthday_date.replace(year=today.year)`, and if that candidate precedes
`today`, `replace(year=today.year + 1)`.  A `none` result models the
`ValueError` that `replace` raises on an unconstructible date. -/
def next_occurrence (today : PyDate) (m d : Int) : Option PyDate :=
  match mkDate today.year m d with
  | none => none
  | some c => if pyDateLt c today then mkDate (today.year + 1) m d else some c

/-- Crossing a shifted-year boundary adds 366 days when the new civil
year is a leap year and 365 otherwise. -/
theorem era_step (z : Int) :
    era_part (z + 1) - era_part z = if isLeapYear (z + 1) = true then 366 else 365 := by
  simp only [isLeapYear, era_part, Bool.or_eq_true, Bool.and_eq_true, decide_eq_true_eq]
  split_ifs with h
  · omega
  · omega

/-- Crossing a shifted-year boundary adds at least 365 days. -/
theorem era_step_ge (z : Int) : era_part z + 365 ≤ era_part (z + 1) := by
  have := era_step z
  split_ifs at this <;> omega

/-- Crossing into a leap year adds exactly 366 days. -/
theorem era_step_366 (z : Int) (h : isLeapYear (z + 1) = true) :
    era_part (z + 1) = era_part z + 366 := by
  have := era_step z
  rw [if_pos h] at this
  omega

/-- Telescoped version of `era_step_ge`. -/
theorem era_le_of_le (z1 z2 : Int) (h : z1 ≤ z2) :
    era_part z1 + 365 * (z2 - z1) ≤ era_part z2 := by
  exact @Int.le_induction (fun x => era_part z1 + 365 * (x - z1) ≤ era_part x) z1
    (by omega) (fun n hn ih => by have := era_step_ge n; omega) z2 h

/-- Numeric month-length bounds extracted from `days_in_month`. -/
theorem dim_bounds (y m d : Int) (hd : d ≤ days_in_month y m) :
    d ≤ 31 ∧ (m = 2 → d ≤ 29) ∧ ((m = 4 ∨ m = 6 ∨ m = 9 ∨ m = 11) → d ≤ 30) := by
  unfold days_in_month at hd
  split_ifs at hd <;> refine ⟨by omega, by omega, by omega⟩

/-- A valid February 29 only exists in a leap year. -/
theorem feb29_leap (y d : Int) (hd : 29 ≤ d) (hd' : d ≤ days_in_month y 2) :
    isLeapYear y = true := by
  unfold days_in_month at hd'
  norm_num at hd'
  split_ifs at hd' with h
  · exact h
  · omega

set_option maxHeartbeats 1000000 in
/-- Within one regime (January/February, or March..December), the day of
the shifted year is strictly monotone in the lexicographic month/day
order of valid dates. -/
theorem doy_lt_doy (m1 d1 m2 d2 : Int)
    (hm1 : 1 ≤ m1) (hm1' : m1 ≤ 12) (hm2 : 1 ≤ m2) (hm2' : m2 ≤ 12)
    (hd1 : 1 ≤ d1) (hd1' : d1 ≤ 31) (hfeb1 : m1 = 2 → d1 ≤ 29)
    (h30a : (m1 = 4 ∨ m1 = 6 ∨ m1 = 9 ∨ m1 = 11) → d1 ≤ 30)
    (hd2 : 1 ≤ d2)
    (hreg : (m1 ≤ 2 ∧ m2 ≤ 2) ∨ (3 ≤ m1 ∧ 3 ≤ m2))
    (hlex : m1 < m2 ∨ (m1 = m2 ∧ d1 < d2)) :
    doy_of m1 d1 < doy_of m2 d2 := by
  simp only [doy_of, mp_of]
  interval_cases m1 <;> interval_cases m2 <;> omega

/-- Day-of-shifted-year range for January and February, with the
exactness condition for the top value 365. -/
theorem doy_janfeb_bounds (m d : Int) (hm : 1 ≤ m) (hm' : m ≤ 2)
    (hd : 1 ≤ d) (hd' : d ≤ 31) (hfeb : m = 2 → d ≤ 29) :
    306 ≤ doy_of m d ∧ doy_of m d ≤ 365 ∧
      (doy_of m d = 365 → m = 2 ∧ d = 29) := by
  simp only [doy_of, mp_of]
  interval_cases m <;> omega

/-- Day-of-shifted-year range for March through December. -/
theorem doy_mar_bounds (m d : Int) (hm : 3 ≤ m) (hm' : m ≤ 12)
    (hd : 1 ≤ d) (hd' : d ≤ 31) :
    0 ≤ doy_of m d ∧ doy_of m d ≤ 305 := by
  simp only [doy_of, mp_of]
  interval_cases m <;> omega

set_option maxHeartbeats 1000000 in
/-- The day number is strictly monotone along the lexicographic order of
valid dates: lexicographic and chronological order agree. -/
theorem days_from_civil_strict_mono (ya ma da yb mb db : Int)
    (hva : isValidDate ya ma da = true) (hvb : isValidDate yb mb db = true)
    (hlt : ya < yb ∨ (ya = yb ∧ (ma < mb ∨ (ma = mb ∧ da < db)))) :
    days_from_civil ya ma da < days_from_civil yb mb db := by
  simp only [isValidDate, Bool.and_eq_true, decide_eq_true_eq] at hva hvb
  obtain ⟨⟨⟨⟨⟨hya1, hya2⟩, hma1⟩, hma2⟩, hda1⟩, hda2⟩ := hva
  obtain ⟨⟨⟨⟨⟨hyb1, hyb2⟩, hmb1⟩, hmb2⟩, hdb1⟩, hdb2⟩ := hvb
  have hba := dim_bounds ya ma da hda2
  have hbb := dim_bounds yb mb db hdb2
  unfold days_from_civil
  by_cases hA : ma ≤ 2 <;> by_cases hB : mb ≤ 2
  · -- both January/February: shifted years ya-1 and yb-1
    rw [if_pos hA, if_pos hB]
    have hdoya := doy_janfeb_bounds ma da hma1 hA hda1 hba.1 hba.2.1
    have hdoyb := doy_janfeb_bounds mb db hmb1 hB hdb1 hbb.1 hbb.2.1
    rcases hlt with hy | ⟨hy, hmd⟩
    · have htel := era_le_of_le (ya - 1) (yb - 1) (by omega)
      omega
    · subst hy
      have hmono := doy_lt_doy ma da mb db hma1 hma2 hmb1 hmb2 hda1 hba.1
        hba.2.1 hba.2.2 hdb1 (Or.inl ⟨hA, hB⟩) hmd
      omega
  · -- a in January/February, b in March..December
    rw [if_pos hA, if_neg hB]
    have hdoya := doy_janfeb_bounds ma da hma1 hA hda1 hba.1 hba.2.1
    have hdoyb := doy_mar_bounds mb db (by omega) hmb2 hdb1 hbb.1
    rcases hlt with hy | ⟨hy, hmd⟩
    · have htel := era_le_of_le (ya - 1) yb (by omega)
      omega
    · subst hy
      by_cases hdoya365 : doy_of ma da = 365
      · obtain ⟨hma2', hda29⟩ := hdoya.2.2 hdoya365
        subst hma2'
        have hleap := feb29_leap ya da (by omega) hda2
        have h366 : era_part ya = era_part (ya - 1) + 366 := by
          have := era_step_366 (ya - 1) (by simpa using hleap)
          simpa using this
        omega
      · have hstep := era_step_ge (ya - 1)
        have h1 : era_part (ya - 1) + 365 ≤ era_part ya := by simpa using hstep
        omega
  · -- a in March..December, b in January/February: forces ya < yb
    rw [if_neg hA, if_pos hB]
    have hdoya := doy_mar_bounds ma da (by omega) hma2 hda1 hba.1
    have hdoyb := doy_janfeb_bounds mb db hmb1 hB hdb1 hbb.1 hbb.2.1
    have hy : ya < yb := by
      rcases hlt with hy | ⟨hy, hmd | ⟨hmd, _⟩⟩
      · exact hy
      · omega
      · omega
    by_cases hnext : yb = ya + 1
    · subst hnext
      have hz : ya + 1 - 1 = ya := by ring
      rw [hz]
      omega
    · have htel := era_le_of_le ya (yb - 1) (by omega)
      omega
  · -- both March..December
    rw [if_neg hA, if_neg hB]
    have hdoya := doy_mar_bounds ma da (by omega) hma2 hda1 hba.1
    have hdoyb := doy_mar_bounds mb db (by omega) hmb2 hdb1 hbb.1
    rcases hlt with hy | ⟨hy, hmd⟩
    · have htel := era_le_of_le ya yb (by omega)
      omega
    · subst hy
      have hmono := doy_lt_doy ma da mb db hma1 hma2 hmb1 hmb2 hda1 hba.1
        hba.2.1 hba.2.2 hdb1 (Or.inr ⟨by omega, by omega⟩) hmd
      omega

/-- Unfolding of the Python date comparison on explicit triples. -/
theorem pyDateLt_mk (ya ma da yb mb db : Int) :
    pyDateLt ⟨ya, ma, da⟩ ⟨yb, mb, db⟩ = true ↔
      ya < yb ∨ (ya = yb ∧ (ma < mb ∨ (ma = mb ∧ da < db))) := by
  simp [pyDateLt]

/-- The Python date comparison is a trichotomy. -/
theorem pyDateLt_total (a b : PyDate) :
    pyDateLt a b = true ∨ a = b ∨ pyDateLt b a = true := by
  obtain ⟨ya, ma, da⟩ := a
  obtain ⟨yb, mb, db⟩ := b
  simp only [pyDateLt_mk, PyDate.mk.injEq]
  omega

/-- Lexicographic order implies chronological order on valid dates. -/
theorem toOrdinal_lt (a b : PyDate) (ha : isValidDate a.year a.month a.day = true)
    (hb : isValidDate b.year b.month b.day = true) (h : pyDateLt a b = true) :
    toOrdinal a < toOrdinal b := by
  obtain ⟨ya, ma, da⟩ := a
  obtain ⟨yb, mb, db⟩ := b
  exact days_from_civil_strict_mono ya ma da yb mb db ha hb
    ((pyDateLt_mk ya ma da yb mb db).mp h)

/-- If `a` is not lexicographically before `b` then `b` is chronologically
no later than `a` (valid dates). -/
theorem toOrdinal_ge_of_not_lt (a b : PyDate)
    (ha : isValidDate a.year a.month a.day = true)
    (hb : isValidDate b.year b.month b.day = true)
    (h : ¬ pyDateLt a b = true) : toOrdinal b ≤ toOrdinal a := by
  rcases pyDateLt_total a b with hlt | heq | hgt
  · exact absurd hlt h
  · exact le_of_eq (by rw [heq])
  · exact le_of_lt (toOrdinal_lt b a hb ha hgt)

/-- C8 (amended): for every valid `today` and every month/day whose
candidate in `today`'s year is constructible — and, whenever that
candidate precedes `today`, whose candidate in the following year is also
constructible — the next-occurrence computation returns the current-year
candidate if it is not before `today` and otherwise the same month/day in
`today.year + 1`; the resulting day difference `candidate - today` is
non-negative and is zero exactly when the occurrence is today.  The two
concrete examples of the claim are included.  (As stated, without the
second constructibility proviso, the claim is false: see
`next_occurrence_feb29_counterexample`.) -/
theorem next_occurrence_correct (today : PyDate) (m d : Int)
    (htoday : isValidDate today.year today.month today.day = true)
    (hc : isValidDate today.year m d = true)
    (hc2 : pyDateLt ⟨today.year, m, d⟩ today = true →
      isValidDate (today.year + 1) m d = true) :
    (∃ c, next_occurrence today m d = some c ∧
      c = (if pyDateLt ⟨today.year, m, d⟩ today = true
           then (⟨today.year + 1, m, d⟩ : PyDate) else ⟨today.year, m, d⟩) ∧
      0 ≤ days_until c today ∧ (days_until c today = 0 ↔ c = today)) ∧
    next_occurrence ⟨2024, 3, 10⟩ 1 1 = some ⟨2025, 1, 1⟩ ∧
    next_occurrence ⟨2024, 3, 10⟩ 12 25 = some ⟨2024, 12, 25⟩ := by
  refine ⟨?_, by decide, by decide⟩
  have hmk : mkDate today.year m d = some ⟨today.year, m, d⟩ := by
    unfold mkDate
    rw [if_pos hc]
  have hunf : next_occurrence today m d =
      (if pyDateLt ⟨today.year, m, d⟩ today = true
        then mkDate (today.year + 1) m d else some ⟨today.year, m, d⟩) := by
    unfold next_occurrence
    rw [hmk]
  by_cases hlt : pyDateLt ⟨today.year, m, d⟩ today = true
  · have hv2 := hc2 hlt
    have hmk2 : mkDate (today.year + 1) m d = some ⟨today.year + 1, m, d⟩ := by
      unfold mkDate
      rw [if_pos hv2]
    refine ⟨⟨today.year + 1, m, d⟩, by rw [hunf, if_pos hlt, hmk2],
      by rw [if_pos hlt], ?_, ?_⟩
    · have hstrict : toOrdinal today < toOrdinal ⟨today.year + 1, m, d⟩ := by
        apply toOrdinal_lt today ⟨today.year + 1, m, d⟩ htoday hv2
        obtain ⟨yt, mt, dt⟩ := today
        exact (pyDateLt_mk yt mt dt (yt + 1) m d).mpr (Or.inl (by omega))
      unfold days_until
      omega
    · constructor
      · intro h0
        exfalso
        have hstrict : toOrdinal today < toOrdinal ⟨today.year + 1, m, d⟩ := by
          apply toOrdinal_lt today ⟨today.year + 1, m, d⟩ htoday hv2
          obtain ⟨yt, mt, dt⟩ := today
          exact (pyDateLt_mk yt mt dt (yt + 1) m d).mpr (Or.inl (by omega))
        unfold days_until at h0
        omega
      · intro hEq
        have hy := congrArg PyDate.year hEq
        simp only at hy
        omega
  · refine ⟨⟨today.year, m, d⟩, by rw [hunf, if_neg hlt], by rw [if_neg hlt], ?_, ?_⟩
    · have hge := toOrdinal_ge_of_not_lt ⟨today.year, m, d⟩ today hc htoday hlt
      unfold days_until
      omega
    · constructor
      · intro h0
        rcases pyDateLt_total ⟨today.year, m, d⟩ today with h | h | h
        · exact absurd h hlt
        · exact h
        · exfalso
          have := toOrdinal_lt today ⟨today.year, m, d⟩ htoday hc h
          unfold days_until at h0
          omega
      · intro hEq
        rw [hEq]
        unfold days_until
        omega

/-- Closed instance of `next_occurrence_correct` at the claim's example
`today = 2024-03-10` with month/day `(12, 25)`. -/
theorem next_occurrence_correct_witness :
    (∃ c, next_occurrence ⟨2024, 3, 10⟩ 12 25 = some c ∧
      c = (if pyDateLt ⟨(2024 : Int), 12, 25⟩ ⟨2024, 3, 10⟩ = true
           then (⟨2025, 12, 25⟩ : PyDate) else ⟨2024, 12, 25⟩) ∧
      0 ≤ days_until c ⟨2024, 3, 10⟩ ∧
      (days_until c ⟨2024, 3, 10⟩ = 0 ↔ c = ⟨2024, 3, 10⟩)) ∧
    next_occurrence ⟨2024, 3, 10⟩ 1 1 = some ⟨2025, 1, 1⟩ ∧
    next_occurrence ⟨2024, 3, 10⟩ 12 25 = some ⟨2024, 12, 25⟩ :=
  next_occurrence_correct ⟨2024, 3, 10⟩ 12 25 (by decide) (by decide) (by decide)

/-- C8 counterexample: `today = 2024-03-10` (the claim's own example
date) with month/day `(2, 29)`: the candidate `2024-02-29` is
constructible and precedes `today`, but the code's
`replace(year=2025)` raises (2025-02-29 does not exist), so the
computation fails instead of returning a next occurrence. -/
theorem next_occurrence_feb29_counterexample :
    isValidDate 2024 2 29 = true ∧
    pyDateLt ⟨2024, 2, 29⟩ ⟨2024, 3, 10⟩ = true ∧
    next_occurrence ⟨2024, 3, 10⟩ 2 29 = none := by
  decide

end TelegramBot
